import Mathlib

/-!
Shallow embedding of the dialogue-collection driver of the
`empathic-decoding-parameter` repository (`src/scripts/collect_dialogue.py`).

Python strings are modelled as Lean `String` (with character-level helpers on
`List Char`), Python dicts with string keys as insertion-ordered association
lists, and the external text-completion service as an explicit oracle function
from prompt and sampling parameters to the returned completion text.  The two
observable side effects of the driver — completion requests and output-file
writes — are recorded as an explicit event trace.
-/

namespace CollectDialogue

/-! ### Python dict operations

`{**a, **b}` keeps `a`'s keys in order (values overridden by `b` where the key
also occurs in `b`) and then appends `b`'s keys that are new.  Lookup is
first-match, which coincides with Python dict lookup since dicts have unique
keys. -/

def pyLookup {α : Type} (k : String) : List (String × α) → Option α
  | [] => none
  | (k', v) :: rest => if k' = k then some v else pyLookup k rest

def pyMerge {α : Type} (a b : List (String × α)) : List (String × α) :=
  (a.map fun p =>
    match pyLookup p.1 b with
    | some v => (p.1, v)
    | none => p) ++
  b.filter fun p => (pyLookup p.1 a).isNone

/-! ### Python string operations

`str.strip()` removes leading and trailing whitespace characters;
`str.replace("\n", "")` removes every newline character. -/

def isPySpace (c : Char) : Bool :=
  c = ' ' || c = '\t' || c = '\n' || c = '\r' || c = '\x0b' || c = '\x0c'

def stripBoth {α : Type} (p : α → Bool) (l : List α) : List α :=
  ((l.dropWhile p).reverse.dropWhile p).reverse

def pyStrip (s : String) : String :=
  ⟨stripBoth isPySpace s.data⟩

/-- Python `str.lower()`: lowercase each character. -/
def pyLower (s : String) : String :=
  ⟨s.data.map Char.toLower⟩

/-- Persona normalization `persona.text.replace("\n", "").strip()` from `generate_config_stream`
(`collect_dialogue.py`, lines 101-102). -/
def normalizePersona (s : String) : String :=
  ⟨stripBoth isPySpace (s.data.filter fun c => c ≠ '\n')⟩

/-! ### Data model -/

/-- One entry of `persona.therapist` / `persona.patient`: an object carrying a
`text` field. -/
structure PersonaEntry where
  text : String
deriving Repr, DecidableEq

/-- The experiment configuration, as read from the TOML file: sections
`params.shared`, `params.therapist`, `params.patient`, `persona.therapist`,
`persona.patient`, `dialogue.max_num_turns`, `dialogue.max_num_dialogues` and
`fnames.output`.  Parameter values have an abstract type `α`. -/
structure Config (α : Type) where
  params_shared : List (String × α)
  params_therapist : List (List (String × α))
  params_patient : List (List (String × α))
  persona_therapist : List PersonaEntry
  persona_patient : List PersonaEntry
  max_num_turns : Nat
  max_num_dialogues : Nat
  output : String
deriving Repr, DecidableEq

/-- One element of the condition stream: the tuple
`(params_therapist, params_patient, persona_therapist, persona_patient)`
after merging and persona normalization. -/
structure Condition (α : Type) where
  params_the : List (String × α)
  params_pat : List (String × α)
  persona_the : String
  persona_pat : String
deriving Repr, DecidableEq

/-- One turn of a dialogue: `{"role": ..., "text": ...}`. -/
structure Turn where
  role : String
  text : String
deriving Repr, DecidableEq

/-- One collected dialogue: `{"meta": {...}, "dialogue": [...]}`.  The meta
object carries exactly the four resolved fields of the `Condition`. -/
structure DialogueRecord (α : Type) where
  meta : Condition α
  dialogue : List Turn
deriving Repr, DecidableEq

/-- Observable side effects of the driver: a completion request with its
prompt and sampling parameters, or a whole-file overwrite of the output. -/
inductive Event (α : Type) where
  | request : String → List (String × α) → Event α
  | write : String → List (DialogueRecord α) → Event α
deriving Repr, DecidableEq

/-- The completion service: from a prompt and sampling parameters to the text
of the first returned candidate (`choices[0].text`, before stripping). -/
def Oracle (α : Type) : Type := String → List (String × α) → String

/-! ### Condition-stream expansion (`generate_config_stream`, lines 86-105) -/

def mkCondition {α : Type} (shared pthe ppat : List (String × α))
    (perthe perpat : PersonaEntry) : Condition α :=
  { params_the := pyMerge shared pthe,
    params_pat := pyMerge shared ppat,
    persona_the := normalizePersona perthe.text,
    persona_pat := normalizePersona perpat.text }

/-- The expansion `itertools.product(params.therapist, params.patient, persona.therapist,
persona.patient)` with the merge and normalization applied to each tuple.
`product` varies its last argument fastest, which is the nested-bind order
below. -/
def generate_config_stream {α : Type} (cfg : Config α) : List (Condition α) :=
  cfg.params_therapist.flatMap fun pthe =>
    cfg.params_patient.flatMap fun ppat =>
      cfg.persona_therapist.flatMap fun perthe =>
        cfg.persona_patient.map fun perpat =>
          mkCondition cfg.params_shared pthe ppat perthe perpat

/-! ### Collecting one dialogue (`collect_single`, lines 107-144) -/

/-- The per-turn state of `collect_single`: the two growing prompt
transcripts, the dialogue list built so far, and the trace of issued
completion requests. -/
structure TurnState (α : Type) where
  prompt_pat : String
  prompt_the : String
  dialogue : List Turn
  trace : List (Event α)

/-- One iteration of the `for _ in trange(max_num_turns)` loop body
(lines 124-142). -/
def collectStep {α : Type} (o : Oracle α)
    (params_pat params_the : List (String × α)) (st : TurnState α) :
    TurnState α :=
  let promptP := st.prompt_pat ++ "\nYou:"
  let response_pat := pyStrip (o promptP params_pat)
  let promptT := st.prompt_the ++ "\nMe: " ++ response_pat ++ "\nHal:"
  let response_the := pyStrip (o promptT params_the)
  { prompt_pat := st.prompt_pat ++ "\nYou: " ++ response_pat ++
      "\nHal: " ++ response_the,
    prompt_the := st.prompt_the ++ "\nMe: " ++ response_pat ++
      "\nHal: " ++ response_the,
    dialogue := st.dialogue ++
      [⟨"patient", response_pat⟩, ⟨"therapist", response_the⟩],
    trace := st.trace ++
      [Event.request promptP params_pat, Event.request promptT params_the] }

/-- The turn loop, iterated `max_num_turns` times. -/
def loopTurns {α : Type} (o : Oracle α)
    (params_pat params_the : List (String × α)) :
    Nat → TurnState α → TurnState α
  | 0, st => st
  | n + 1, st => loopTurns o params_pat params_the n
      (collectStep o params_pat params_the st)

/-- Function `collect_single(cfgs)`: seeds the two transcripts with the two personas,
runs the turn loop, and returns the dialogue record together with the trace
of completion requests it made. -/
def collect_single {α : Type} (o : Oracle α) (maxNumTurns : Nat)
    (cfgs : Condition α) : DialogueRecord α × List (Event α) :=
  let fin := loopTurns o cfgs.params_pat cfgs.params_the maxNumTurns
    { prompt_pat := cfgs.persona_pat, prompt_the := cfgs.persona_the,
      dialogue := [], trace := [] }
  ({ meta := cfgs, dialogue := fin.dialogue }, fin.trace)

/-! ### The full run (`DialogueCollector.collect` and `save`, lines 70-159) -/

/-- The driver state: the in-memory `self.dialogues` list, the contents of the
output file (`none` while nothing has been written), and the cumulated trace
of observable effects. -/
structure RunState (α : Type) where
  dialogues : List (DialogueRecord α)
  disk : Option (List (DialogueRecord α))
  trace : List (Event α)
deriving Repr, DecidableEq

def initState {α : Type} : RunState α := ⟨[], none, []⟩

/-- The inner `for _ in trange(max_num_dialogues)` loop (lines 156-157):
append one collected dialogue per iteration. -/
def collectForCondition {α : Type} (o : Oracle α) (maxNumTurns : Nat)
    (cond : Condition α) : Nat → RunState α → RunState α
  | 0, st => st
  | d + 1, st =>
    let r := collect_single o maxNumTurns cond
    collectForCondition o maxNumTurns cond d
      { st with dialogues := st.dialogues ++ [r.1], trace := st.trace ++ r.2 }

/-- One iteration of the outer `for cfgs in generate_config_stream()` loop
(lines 155-158): collect `max_num_dialogues` dialogues for the condition,
then `self.save()` — a whole-file overwrite with the full dialogue list. -/
def processCondition {α : Type} (o : Oracle α) (cfg : Config α)
    (st : RunState α) (cond : Condition α) : RunState α :=
  let inner := collectForCondition o cfg.max_num_turns cond
    cfg.max_num_dialogues st
  { inner with
    disk := some inner.dialogues,
    trace := inner.trace ++ [Event.write cfg.output inner.dialogues] }

/-- Method `DialogueCollector.collect` (lines 146-159).  When `ask` is set, the
operator's `input()` response is consulted: anything whose lowercasing is not
`"y"` aborts with a clean early return, before any condition is processed. -/
def collect {α : Type} (o : Oracle α) (cfg : Config α)
    (ask : Bool) (answer : String) : RunState α :=
  if ask && pyLower answer != "y" then initState
  else (generate_config_stream cfg).foldl (processCondition o cfg) initState

/-- Method `load_config` (lines 52-61): the filesystem is a partial map from paths to
parsed configurations; a missing path raises `FileNotFoundError`. -/
def load_config {α : Type} (fs : String → Option (Config α)) (path : String) :
    Except String (Config α) :=
  match fs path with
  | none => Except.error ("Config file " ++ path ++ " does not exist.")
  | some cfg => Except.ok cfg

/-- The whole driver: `DialogueCollector(parse_args()).collect()` — load the
configuration (raising if the file is missing), then run the collection. -/
def run {α : Type} (fs : String → Option (Config α)) (o : Oracle α)
    (path : String) (ask : Bool) (answer : String) :
    Except String (RunState α) :=
  match load_config fs path with
  | Except.error e => Except.error e
  | Except.ok cfg => Except.ok (collect o cfg ask answer)

/-! ## Helper lemmas -/

theorem head?_dropWhile_false {α : Type} {p : α → Bool} {x : α} :
    ∀ {l : List α}, (l.dropWhile p).head? = some x → p x = false := by
  intro l
  induction l with
  | nil => intro h; simp [List.dropWhile] at h
  | cons a t ih =>
    intro h
    rw [List.dropWhile_cons] at h
    by_cases hp : p a
    · rw [if_pos hp] at h
      exact ih h
    · rw [if_neg hp] at h
      simp at h
      subst h
      exact Bool.eq_false_iff.mpr hp

theorem dropWhile_eq_self_of_head {α : Type} {p : α → Bool} {l : List α} {x : α}
    (h : l.head? = some x) (hx : p x = false) : l.dropWhile p = l := by
  cases l with
  | nil => simp at h
  | cons a t =>
    simp at h
    subst h
    simp [List.dropWhile_cons, hx]

theorem dropWhile_idem {α : Type} (p : α → Bool) (l : List α) :
    (l.dropWhile p).dropWhile p = l.dropWhile p := by
  induction l with
  | nil => rfl
  | cons a t ih =>
    rw [List.dropWhile_cons]
    by_cases hp : p a
    · rw [if_pos hp]
      exact ih
    · rw [if_neg hp]
      simp [List.dropWhile_cons, hp]

theorem stripBoth_idem {α : Type} (p : α → Bool) (l : List α) :
    stripBoth p (stripBoth p l) = stripBoth p l := by
  have hone : (stripBoth p l).dropWhile p = stripBoth p l := by
    cases hb : (stripBoth p l).head? with
    | none =>
      have hnil : stripBoth p l = [] := by
        cases hsl : stripBoth p l with
        | nil => rfl
        | cons y ys => rw [hsl] at hb; simp at hb
      rw [hnil]
      rfl
    | some x =>
      apply dropWhile_eq_self_of_head hb
      have h1 : ((l.dropWhile p).reverse.dropWhile p).getLast? = some x := by
        rw [← List.head?_reverse]
        exact hb
      have h2 : (l.dropWhile p).reverse.getLast? = some x := by
        conv_lhs =>
          rw [← List.takeWhile_append_dropWhile (p := p)
                (l := (l.dropWhile p).reverse)]
        rw [List.getLast?_append, h1]
        rfl
      have h3 : (l.dropWhile p).head? = some x := by
        rw [← List.getLast?_reverse]
        exact h2
      exact head?_dropWhile_false h3
  calc stripBoth p (stripBoth p l)
      = (((stripBoth p l).dropWhile p).reverse.dropWhile p).reverse := rfl
    _ = ((stripBoth p l).reverse.dropWhile p).reverse := by rw [hone]
    _ = ((((l.dropWhile p).reverse.dropWhile p).reverse.reverse).dropWhile
          p).reverse := rfl
    _ = (((l.dropWhile p).reverse.dropWhile p).dropWhile p).reverse := by
          rw [List.reverse_reverse]
    _ = ((l.dropWhile p).reverse.dropWhile p).reverse := by
          rw [dropWhile_idem]
    _ = stripBoth p l := rfl

theorem mem_stripBoth {α : Type} {p : α → Bool} {x : α} {l : List α}
    (h : x ∈ stripBoth p l) : x ∈ l := by
  unfold stripBoth at h
  rw [List.mem_reverse] at h
  have h1 : x ∈ (l.dropWhile p).reverse := (List.dropWhile_sublist p).subset h
  rw [List.mem_reverse] at h1
  exact (List.dropWhile_sublist p).subset h1

theorem pyLookup_append {α : Type} (k : String) (a b : List (String × α)) :
    pyLookup k (a ++ b) = (pyLookup k a).or (pyLookup k b) := by
  induction a with
  | nil => simp [pyLookup]
  | cons hd t ih =>
    obtain ⟨k', v⟩ := hd
    by_cases hk : k' = k <;> simp [pyLookup, hk, ih]

theorem pyLookup_mergeMap {α : Type} (k : String) (b : List (String × α)) :
    ∀ a : List (String × α),
      pyLookup k (a.map fun p =>
        match pyLookup p.1 b with
        | some v => (p.1, v)
        | none => p) =
      match pyLookup k a with
      | some v => some ((pyLookup k b).getD v)
      | none => none := by
  intro a
  induction a with
  | nil => simp [pyLookup]
  | cons hd t ih =>
    obtain ⟨k', v⟩ := hd
    by_cases hk : k' = k
    · subst hk
      cases hb : pyLookup k' b <;> simp [pyLookup, hb]
    · cases hb : pyLookup k' b <;> simp [pyLookup, hk, hb, ih]

theorem pyLookup_filterNew {α : Type} (k : String) (a : List (String × α)) :
    ∀ b : List (String × α),
      pyLookup k (b.filter fun p => (pyLookup p.1 a).isNone) =
      if (pyLookup k a).isNone then pyLookup k b else none := by
  intro b
  induction b with
  | nil => simp [pyLookup]
  | cons hd t ih =>
    obtain ⟨k', v⟩ := hd
    by_cases hk : k' = k
    · subst hk
      cases ha : pyLookup k' a <;> simp [pyLookup, ha, ih]
    · cases hb : (pyLookup k' a).isNone <;>
        simp [pyLookup, hk, ih, List.filter_cons, hb]

theorem length_flatMap_const {α β : Type} {l : List α} {f : α → List β}
    {n : Nat} (h : ∀ a ∈ l, (f a).length = n) :
    (l.flatMap f).length = l.length * n := by
  induction l with
  | nil => simp
  | cons a t ih =>
    rw [List.flatMap_cons, List.length_append, h a (List.mem_cons_self a t),
        ih fun x hx => h x (List.mem_cons_of_mem a hx), List.length_cons]
    ring

/-! ## Claims -/

/-- C5. For every Condition, each role's effective sampling-parameter
mapping equals the shared mapping with role-specific keys overridden: looking
up any key in `pyMerge shared roleSpecific` (the embedding of
`{**params_shared, **params_role}`) returns the role-specific value when the
key occurs there, and otherwise falls back to the shared value — so
shared-only keys keep their shared value, role-only keys are added, and keys
present in both take the role-specific value. -/
theorem pyMerge_lookup {α : Type} (shared roleSpecific : List (String × α))
    (k : String) :
    pyLookup k (pyMerge shared roleSpecific) =
      (pyLookup k roleSpecific).or (pyLookup k shared) := by
  unfold pyMerge
  rw [pyLookup_append, pyLookup_mergeMap, pyLookup_filterNew]
  cases hs : pyLookup k shared <;> cases hr : pyLookup k roleSpecific <;>
    simp [hs, hr]

/-- C7. Persona normalization (`text.replace("\n", "").strip()`) is
idempotent: normalizing an already-normalized string yields it unchanged. -/
theorem normalizePersona_idem (s : String) :
    normalizePersona (normalizePersona s) = normalizePersona s := by
  unfold normalizePersona
  apply congrArg String.mk
  show stripBoth isPySpace
      ((stripBoth isPySpace (s.data.filter fun c => c ≠ '\n')).filter
        fun c => c ≠ '\n') =
    stripBoth isPySpace (s.data.filter fun c => c ≠ '\n')
  have hfilter :
      (stripBoth isPySpace (s.data.filter fun c => c ≠ '\n')).filter
        (fun c => c ≠ '\n') =
      stripBoth isPySpace (s.data.filter fun c => c ≠ '\n') := by
    apply List.filter_eq_self.mpr
    intro a ha
    exact (List.mem_filter.mp (mem_stripBoth ha)).2
  rw [hfilter]
  exact stripBoth_idem _ _

/-- C2. For every Configuration, the expanded Condition stream is a finite
list whose length is the product of the four axis lengths:
|therapist param sets| × |patient param sets| × |therapist personas| ×
|patient personas|. -/
theorem stream_length {α : Type} (cfg : Config α) :
    (generate_config_stream cfg).length =
      cfg.params_therapist.length * cfg.params_patient.length *
        cfg.persona_therapist.length * cfg.persona_patient.length := by
  unfold generate_config_stream
  have h1 : ∀ pthe ∈ cfg.params_therapist,
      ((cfg.params_patient.flatMap fun ppat =>
        cfg.persona_therapist.flatMap fun perthe =>
          cfg.persona_patient.map fun perpat =>
            mkCondition cfg.params_shared pthe ppat perthe perpat).length) =
      cfg.params_patient.length *
        (cfg.persona_therapist.length * cfg.persona_patient.length) := by
    intro pthe _
    apply length_flatMap_const
    intro ppat _
    apply length_flatMap_const
    intro perthe _
    exact List.length_map _ _
  rw [length_flatMap_const h1]
  ring

theorem flatMap_getElem {α β : Type} {f : α → List β} {n : Nat} :
    ∀ {l : List α} {i j : Nat} {a : α},
      (∀ x ∈ l, (f x).length = n) → l[i]? = some a → j < n →
      (l.flatMap f)[i * n + j]? = (f a)[j]? := by
  intro l
  induction l with
  | nil => intro i j a _ ha _; simp at ha
  | cons x t ih =>
    intro i j a hf ha hj
    cases i with
    | zero =>
      simp at ha
      subst ha
      rw [List.flatMap_cons, Nat.zero_mul, Nat.zero_add,
          List.getElem?_append_left]
      rw [hf x (List.mem_cons_self x t)]
      exact hj
    | succ m =>
      rw [List.flatMap_cons]
      have hlen : (f x).length = n := hf x (List.mem_cons_self x t)
      have harith : (m + 1) * n + j = (f x).length + (m * n + j) := by
        rw [hlen]; ring
      rw [harith, List.getElem?_append_right (by omega)]
      have hsub : (f x).length + (m * n + j) - (f x).length = m * n + j := by
        omega
      rw [hsub]
      exact ih (fun y hy => hf y (List.mem_cons_of_mem x hy))
        (by simpa using ha) hj

theorem mul_add_lt_mul {a b c d : Nat} (ha : a < c) (hb : b < d) :
    a * d + b < c * d :=
  calc a * d + b < a * d + d := by omega
    _ = (a + 1) * d := by ring
    _ ≤ c * d := Nat.mul_le_mul (by omega) (Nat.le_refl d)

theorem getElem?_lt_length {α : Type} {l : List α} {i : Nat} {a : α}
    (h : l[i]? = some a) : i < l.length := by
  by_contra hc
  rw [List.getElem?_eq_none (by omega)] at h
  exact Option.noConfusion h

/-- C6. The expanded Condition stream is in product order with therapist
parameter sets as the outermost (slowest-varying) index, then patient
parameter sets, then therapist personas, and patient personas innermost
(fastest-varying): the condition built from the axis elements at indices
`i, j, k, l` sits at stream position `((i·J + j)·K + k)·L + l`, where `J`,
`K`, `L` are the lengths of the patient-params, therapist-persona and
patient-persona axes. -/
theorem stream_product_order {α : Type} (cfg : Config α)
    {i j k l : Nat} {pthe ppat : List (String × α)}
    {perthe perpat : PersonaEntry}
    (hi : cfg.params_therapist[i]? = some pthe)
    (hj : cfg.params_patient[j]? = some ppat)
    (hk : cfg.persona_therapist[k]? = some perthe)
    (hl : cfg.persona_patient[l]? = some perpat) :
    (generate_config_stream cfg)[((i * cfg.params_patient.length + j) *
        cfg.persona_therapist.length + k) *
        cfg.persona_patient.length + l]? =
      some (mkCondition cfg.params_shared pthe ppat perthe perpat) := by
  have hj' : j < cfg.params_patient.length := getElem?_lt_length hj
  have hk' : k < cfg.persona_therapist.length := getElem?_lt_length hk
  have hl' : l < cfg.persona_patient.length := getElem?_lt_length hl
  unfold generate_config_stream
  have harith : ((i * cfg.params_patient.length + j) *
      cfg.persona_therapist.length + k) * cfg.persona_patient.length + l =
      i * (cfg.params_patient.length * (cfg.persona_therapist.length *
        cfg.persona_patient.length)) +
      ((j * (cfg.persona_therapist.length * cfg.persona_patient.length)) +
        (k * cfg.persona_patient.length + l)) := by ring
  rw [harith]
  have hinner1 : ∀ pt' ∈ cfg.params_therapist,
      ((cfg.params_patient.flatMap fun ppat' =>
        cfg.persona_therapist.flatMap fun perthe' =>
          cfg.persona_patient.map fun perpat' =>
            mkCondition cfg.params_shared pt' ppat' perthe' perpat').length) =
      cfg.params_patient.length *
        (cfg.persona_therapist.length * cfg.persona_patient.length) := by
    intro pt' _
    apply length_flatMap_const
    intro ppat' _
    apply length_flatMap_const
    intro perthe' _
    exact List.length_map _ _
  have hbound2 : j * (cfg.persona_therapist.length *
      cfg.persona_patient.length) + (k * cfg.persona_patient.length + l) <
      cfg.params_patient.length * (cfg.persona_therapist.length *
        cfg.persona_patient.length) :=
    mul_add_lt_mul hj' (mul_add_lt_mul hk' hl')
  rw [flatMap_getElem hinner1 hi hbound2]
  have hinner2 : ∀ pe' ∈ cfg.persona_therapist,
      ((cfg.persona_patient.map fun perpat' =>
        mkCondition cfg.params_shared pthe ppat pe' perpat').length) =
      cfg.persona_patient.length := fun pe' _ => List.length_map _ _
  have hinner3 : ∀ pp' ∈ cfg.params_patient,
      ((cfg.persona_therapist.flatMap fun perthe' =>
        cfg.persona_patient.map fun perpat' =>
          mkCondition cfg.params_shared pthe pp' perthe' perpat').length) =
      cfg.persona_therapist.length * cfg.persona_patient.length := by
    intro pp' _
    apply length_flatMap_const
    intro perthe' _
    exact List.length_map _ _
  rw [flatMap_getElem hinner3 hj (mul_add_lt_mul hk' hl')]
  rw [flatMap_getElem hinner2 hk hl']
  rw [List.getElem?_map, hl]
  rfl

/-- A concrete configuration with two therapist parameter sets and two
patient personas, used to witness the product-order theorem at a position
where every index digit matters. -/
def cfgO : Config Nat :=
  { params_shared := [("s", 0)],
    params_therapist := [[("a", 1)], [("a", 2)]],
    params_patient := [[("b", 1)]],
    persona_therapist := [⟨"T1"⟩],
    persona_patient := [⟨"P1"⟩, ⟨"P2"⟩],
    max_num_turns := 1,
    max_num_dialogues := 1,
    output := "out.json" }

/-- Witness for C6 on `cfgO` at axis indices `i = 1`, `j = 0`, `k = 0`,
`l = 1`, i.e. stream position 3. -/
theorem stream_product_order_witness :
    cfgO.params_therapist[1]? = some [("a", 2)] ∧
    cfgO.params_patient[0]? = some [("b", 1)] ∧
    cfgO.persona_therapist[0]? = some ⟨"T1"⟩ ∧
    cfgO.persona_patient[1]? = some ⟨"P2"⟩ ∧
    (generate_config_stream cfgO)[((1 * cfgO.params_patient.length + 0) *
        cfgO.persona_therapist.length + 0) *
        cfgO.persona_patient.length + 1]? =
      some (mkCondition cfgO.params_shared [("a", 2)] [("b", 1)]
        ⟨"T1"⟩ ⟨"P2"⟩) :=
  ⟨rfl, rfl, rfl, rfl, stream_product_order cfgO rfl rfl rfl rfl⟩

theorem collectStep_dialogue {α : Type} (o : Oracle α)
    (pp pt : List (String × α)) (st : TurnState α) :
    ∃ a b : String, (collectStep o pp pt st).dialogue =
      st.dialogue ++ [⟨"patient", a⟩, ⟨"therapist", b⟩] :=
  ⟨_, _, rfl⟩

theorem loopTurns_shape {α : Type} (o : Oracle α)
    (pp pt : List (String × α)) :
    ∀ (n : Nat) (st : TurnState α), ∃ ext : List Turn,
      (loopTurns o pp pt n st).dialogue = st.dialogue ++ ext ∧
      ext.length = 2 * n ∧
      ∀ i, i < 2 * n → ext[i]?.map Turn.role =
        some (if i % 2 = 0 then "patient" else "therapist") := by
  intro n
  induction n with
  | zero =>
    intro st
    exact ⟨[], by simp [loopTurns], by simp, by omega⟩
  | succ m ih =>
    intro st
    obtain ⟨ext, hd, hlen, hrole⟩ := ih (collectStep o pp pt st)
    obtain ⟨a, b, hstep⟩ := collectStep_dialogue o pp pt st
    refine ⟨⟨"patient", a⟩ :: ⟨"therapist", b⟩ :: ext, ?_, ?_, ?_⟩
    · show (loopTurns o pp pt m (collectStep o pp pt st)).dialogue = _
      rw [hd, hstep, List.append_assoc]
      rfl
    · simp [hlen]
      omega
    · intro i hi
      rcases i with _ | _ | i'
      · simp
      · simp
      · rw [List.getElem?_cons_succ, List.getElem?_cons_succ]
        rw [show (i' + 1 + 1) % 2 = i' % 2 by omega]
        exact hrole i' (by omega)

/-- C1. For every Condition and every turn budget `N ≥ 0`, collecting one
dialogue produces a Dialogue Record whose dialogue sequence has exactly `2·N`
turns in strict alternating role order starting with "patient": the turn at
0-based position `i` (1-based position `i+1`) carries role "patient" when `i`
is even (odd 1-based positions 1, 3, 5, …) and "therapist" when `i` is odd
(even 1-based positions 2, 4, 6, …). -/
theorem collect_single_turns {α : Type} (o : Oracle α) (N : Nat)
    (cond : Condition α) :
    (collect_single o N cond).1.dialogue.length = 2 * N ∧
    ∀ i, i < 2 * N →
      (collect_single o N cond).1.dialogue[i]?.map Turn.role =
        some (if i % 2 = 0 then "patient" else "therapist") := by
  obtain ⟨ext, hd, hlen, hrole⟩ := loopTurns_shape o cond.params_pat
    cond.params_the N
    ⟨cond.persona_pat, cond.persona_the, [], []⟩
  have hdia : (collect_single o N cond).1.dialogue = ext := by
    show (loopTurns o cond.params_pat cond.params_the N
      ⟨cond.persona_pat, cond.persona_the, [], []⟩).dialogue = ext
    rw [hd]
    exact List.nil_append ext
  exact ⟨by rw [hdia, hlen], fun i hi => by rw [hdia]; exact hrole i hi⟩

/-- Witness for C1 at a concrete input: a constant oracle, `N = 1`, and an
empty-parameter condition; the second conjunct is instantiated at turn
position 0. -/
theorem collect_single_turns_witness :
    (collect_single (fun _ _ => " hi ") 1
      (⟨[], [], "P", "T"⟩ : Condition Nat)).1.dialogue.length = 2 * 1 ∧
    (collect_single (fun _ _ => " hi ") 1
      (⟨[], [], "P", "T"⟩ : Condition Nat)).1.dialogue[0]?.map Turn.role =
      some (if 0 % 2 = 0 then "patient" else "therapist") :=
  ⟨(collect_single_turns (fun _ _ => " hi ") 1 ⟨[], [], "P", "T"⟩).1,
   (collect_single_turns (fun _ _ => " hi ") 1 ⟨[], [], "P", "T"⟩).2 0
     (by omega)⟩

theorem loopTurns_succ {α : Type} (o : Oracle α)
    (pp pt : List (String × α)) :
    ∀ (n : Nat) (st : TurnState α),
      loopTurns o pp pt (n + 1) st =
        collectStep o pp pt (loopTurns o pp pt n st) := by
  intro n
  induction n with
  | zero => intro st; rfl
  | succ m ih =>
    intro st
    show loopTurns o pp pt (m + 1) (collectStep o pp pt st) = _
    rw [ih (collectStep o pp pt st)]
    rfl

/-- C3 (counterexample). The claim asserts that after each turn the same
exchange text `You: <patient>\nHal: <therapist>` is appended to BOTH
transcripts.  At the concrete input below the turn's recorded utterances are
`a` (patient) and `b` (therapist), yet the therapist transcript after the
turn is not the old transcript with `You: a\nHal: b` appended — the code
appends `Me: a\nHal: b` to the therapist side instead. -/
theorem exchange_both_transcripts_cex :
    ¬ ((collectStep (fun p _ => if p = "P\nYou:" then " a " else " b ")
          ([] : List (String × Nat)) []
          ⟨"P", "T", [], []⟩).prompt_the =
        "T" ++ "\nYou: " ++
          (((collectStep (fun p _ => if p = "P\nYou:" then " a " else " b ")
              ([] : List (String × Nat)) []
              ⟨"P", "T", [], []⟩).dialogue[0]?.map Turn.text).getD "") ++
          "\nHal: " ++
          (((collectStep (fun p _ => if p = "P\nYou:" then " a " else " b ")
              ([] : List (String × Nat)) []
              ⟨"P", "T", [], []⟩).dialogue[1]?.map Turn.text).getD "")) := by
  decide

/-- C3 (amended). After every turn of every dialogue, the exchange is
appended to BOTH transcripts, each in that side's own voice: the patient's
transcript receives `\nYou: <patient>\nHal: <therapist>` while the
therapist's transcript receives `\nMe: <patient>\nHal: <therapist>`, where
`<patient>` and `<therapist>` are exactly the two utterances recorded for
the turn — so both sides' future prompts contain the full exchange history,
but under different cue labels ("You:" versus "Me:"), not as identical
text. -/
theorem exchange_appended {α : Type} (o : Oracle α)
    (pp pt : List (String × α)) (n : Nat) (st : TurnState α) :
    ∃ p t : String,
      (loopTurns o pp pt (n + 1) st).dialogue =
        (loopTurns o pp pt n st).dialogue ++
          [⟨"patient", p⟩, ⟨"therapist", t⟩] ∧
      (loopTurns o pp pt (n + 1) st).prompt_pat =
        (loopTurns o pp pt n st).prompt_pat ++
          "\nYou: " ++ p ++ "\nHal: " ++ t ∧
      (loopTurns o pp pt (n + 1) st).prompt_the =
        (loopTurns o pp pt n st).prompt_the ++
          "\nMe: " ++ p ++ "\nHal: " ++ t := by
  rw [loopTurns_succ]
  exact ⟨_, _, rfl, by simp [collectStep, String.append_assoc],
    by simp [collectStep, String.append_assoc]⟩

/-- The records a full run produces for a given list of conditions, in
condition order: `max_num_dialogues` records per condition. -/
def expectedRecords {α : Type} (o : Oracle α) (cfg : Config α)
    (conds : List (Condition α)) : List (DialogueRecord α) :=
  conds.flatMap fun c =>
    List.replicate cfg.max_num_dialogues
      (collect_single o cfg.max_num_turns c).1

theorem collectForCondition_shape {α : Type} (o : Oracle α) (T : Nat)
    (cond : Condition α) :
    ∀ (d : Nat) (st : RunState α),
      (collectForCondition o T cond d st).dialogues =
        st.dialogues ++ List.replicate d (collect_single o T cond).1 ∧
      (collectForCondition o T cond d st).disk = st.disk := by
  intro d
  induction d with
  | zero => intro st; exact ⟨by simp [collectForCondition], rfl⟩
  | succ m ih =>
    intro st
    constructor
    · simp only [collectForCondition]
      rw [(ih _).1]
      simp [List.replicate_succ, List.append_assoc]
    · simp only [collectForCondition]
      rw [(ih _).2]

theorem processCondition_shape {α : Type} (o : Oracle α) (cfg : Config α)
    (st : RunState α) (cond : Condition α) :
    (processCondition o cfg st cond).dialogues =
      st.dialogues ++ List.replicate cfg.max_num_dialogues
        (collect_single o cfg.max_num_turns cond).1 ∧
    (processCondition o cfg st cond).disk =
      some ((processCondition o cfg st cond).dialogues) := by
  constructor
  · show (collectForCondition o cfg.max_num_turns cond
        cfg.max_num_dialogues st).dialogues = _
    exact (collectForCondition_shape o cfg.max_num_turns cond
      cfg.max_num_dialogues st).1
  · rfl

theorem foldl_processCondition {α : Type} (o : Oracle α) (cfg : Config α) :
    ∀ (conds : List (Condition α)) (st : RunState α),
      (conds.foldl (processCondition o cfg) st).dialogues =
        st.dialogues ++ expectedRecords o cfg conds ∧
      (conds.foldl (processCondition o cfg) st).disk =
        (if conds.isEmpty then st.disk
         else some (st.dialogues ++ expectedRecords o cfg conds)) := by
  intro conds
  induction conds with
  | nil => intro st; simp [expectedRecords]
  | cons c cs ih =>
    intro st
    obtain ⟨pd, pk⟩ := processCondition_shape o cfg st c
    obtain ⟨hd, hk⟩ := ih (processCondition o cfg st c)
    constructor
    · rw [List.foldl_cons, hd, pd]
      simp [expectedRecords, List.append_assoc]
    · rw [List.foldl_cons, hk]
      cases cs with
      | nil => simp [expectedRecords, pk, pd]
      | cons c2 cs2 =>
        rw [pd]
        simp [expectedRecords, List.append_assoc]

/-- C4. If the run is halted after completing condition `k` (of the `m`
conditions of the stream, `1 ≤ k ≤ m`), the persisted Result Set on disk is
exactly the Dialogue Records of conditions `1..k` in condition order —
`max_num_dialogues` records per condition, hence `k × max_num_dialogues`
records in total — and nothing from conditions `k+1..m`. -/
theorem checkpoint_after_k {α : Type} (o : Oracle α) (cfg : Config α)
    (k : Nat) (hk1 : 1 ≤ k)
    (hk2 : k ≤ (generate_config_stream cfg).length) :
    (((generate_config_stream cfg).take k).foldl (processCondition o cfg)
        initState).disk =
      some (expectedRecords o cfg ((generate_config_stream cfg).take k)) ∧
    (expectedRecords o cfg ((generate_config_stream cfg).take k)).length =
      k * cfg.max_num_dialogues := by
  have hlen : ((generate_config_stream cfg).take k).length = k := by
    rw [List.length_take]
    omega
  have hne : ((generate_config_stream cfg).take k).isEmpty = false := by
    cases h : (generate_config_stream cfg).take k with
    | nil => rw [h] at hlen; simp at hlen; omega
    | cons _ _ => rfl
  obtain ⟨hd, hk'⟩ := foldl_processCondition o cfg
    ((generate_config_stream cfg).take k) initState
  constructor
  · rw [hk', hne]
    simp [initState]
  · unfold expectedRecords
    rw [length_flatMap_const fun c _ =>
      List.length_replicate cfg.max_num_dialogues _]
    rw [hlen]

/-- A minimal concrete configuration (one entry per axis) used to witness the
run-level theorems. -/
def cfgW : Config Nat :=
  { params_shared := [],
    params_therapist := [[]],
    params_patient := [[]],
    persona_therapist := [⟨"T"⟩],
    persona_patient := [⟨"P"⟩],
    max_num_turns := 0,
    max_num_dialogues := 1,
    output := "out.json" }

/-- Witness for C4 at `k = 1` on the one-condition configuration
`cfgW`. -/
theorem checkpoint_after_k_witness :
    1 ≤ (1 : Nat) ∧ 1 ≤ (generate_config_stream cfgW).length ∧
    ((((generate_config_stream cfgW).take 1).foldl
        (processCondition (fun _ _ => "") cfgW) initState).disk =
      some (expectedRecords (fun _ _ => "") cfgW
        ((generate_config_stream cfgW).take 1)) ∧
    (expectedRecords (fun _ _ => "") cfgW
        ((generate_config_stream cfgW).take 1)).length =
      1 * cfgW.max_num_dialogues) :=
  ⟨by omega, by decide,
   checkpoint_after_k (fun _ _ => "") cfgW 1 (by omega) (by decide)⟩

/-- C8. When the run is started with the confirmation gate enabled and
the operator declines (any response whose lowercasing is not `"y"`), the run
returns cleanly: the in-memory dialogue list is empty, nothing was written
to the output file, and the event trace is empty — in particular no
completion request was issued. -/
theorem decline_aborts {α : Type} (o : Oracle α) (cfg : Config α)
    (answer : String) (h : pyLower answer ≠ "y") :
    (collect o cfg true answer).dialogues = [] ∧
    (collect o cfg true answer).disk = none ∧
    (collect o cfg true answer).trace = [] := by
  have hb : (pyLower answer != "y") = true := bne_iff_ne.mpr h
  have hc : collect o cfg true answer = initState := by
    simp [collect, hb]
  rw [hc]
  exact ⟨rfl, rfl, rfl⟩

/-- Witness for C8 with the concrete decline response `"n"`. -/
theorem decline_aborts_witness :
    pyLower "n" ≠ "y" ∧
    ((collect (fun _ _ => "") cfgW true "n").dialogues = [] ∧
     (collect (fun _ _ => "") cfgW true "n").disk = none ∧
     (collect (fun _ _ => "") cfgW true "n").trace = []) :=
  ⟨by decide, decline_aborts (fun _ _ => "") cfgW "n" (by decide)⟩

/-- C9. When the configuration file at the given path does not exist, the
driver fails with the `FileNotFoundError` message before anything else
happens: the result is the error — no `RunState` is ever produced, so no
completion request is made and no output is written. -/
theorem missing_config_fails {α : Type} (fs : String → Option (Config α))
    (o : Oracle α) (path : String) (ask : Bool) (answer : String)
    (h : fs path = none) :
    run fs o path ask answer =
      Except.error ("Config file " ++ path ++ " does not exist.") := by
  unfold run load_config
  rw [h]

/-- Witness for C9 on an empty filesystem and the path `"exp.toml"`. -/
theorem missing_config_fails_witness :
    (fun _ : String => (none : Option (Config Nat))) "exp.toml" = none ∧
    run (fun _ => (none : Option (Config Nat))) (fun _ _ => "") "exp.toml"
        false "" =
      Except.error ("Config file " ++ "exp.toml" ++ " does not exist.") :=
  ⟨rfl, missing_config_fails _ _ "exp.toml" false "" rfl⟩

/-- C10. When at least one of the four axes (therapist param sets,
patient param sets, therapist personas, patient personas) is empty, the
expanded Condition stream is empty, and a full (unconfirmed) run finishes
with an empty event trace — no completion request is ever issued — and with
no output file written: the per-condition save is never reached. -/
theorem empty_axis_no_effects {α : Type} (o : Oracle α) (cfg : Config α)
    (answer : String)
    (h : cfg.params_therapist = [] ∨ cfg.params_patient = [] ∨
         cfg.persona_therapist = [] ∨ cfg.persona_patient = []) :
    generate_config_stream cfg = [] ∧
    (collect o cfg false answer).trace = [] ∧
    (collect o cfg false answer).disk = none := by
  have hstream : generate_config_stream cfg = [] := by
    unfold generate_config_stream
    rcases h with h | h | h | h <;> simp [h]
  have hc : collect o cfg false answer = initState := by
    simp [collect, hstream]
  rw [hc]
  exact ⟨hstream, rfl, rfl⟩

/-- A configuration whose patient-persona axis is empty, used to witness
C10. -/
def cfgE : Config Nat :=
  { params_shared := [],
    params_therapist := [[]],
    params_patient := [[]],
    persona_therapist := [⟨"T"⟩],
    persona_patient := [],
    max_num_turns := 3,
    max_num_dialogues := 2,
    output := "o.json" }

/-- Witness for C10 on the concrete configuration `cfgE`. -/
theorem empty_axis_no_effects_witness :
    (cfgE.params_therapist = [] ∨ cfgE.params_patient = [] ∨
     cfgE.persona_therapist = [] ∨ cfgE.persona_patient = []) ∧
    (generate_config_stream cfgE = [] ∧
     (collect (fun _ _ => "") cfgE false "").trace = [] ∧
     (collect (fun _ _ => "") cfgE false "").disk = none) :=
  ⟨Or.inr (Or.inr (Or.inr rfl)),
   empty_axis_no_effects (fun _ _ => "") cfgE ""
     (Or.inr (Or.inr (Or.inr rfl)))⟩

end CollectDialogue
